import Mathlib

/-!
Verification model of `scripts/generate_index.py`.

The script scans the `site/` directory for subfolders, extracts a title and a
description from each subfolder's markdown summary file, and renders one
static `index.html` page.  This file gives a shallow embedding of the script:

* `parse_markdown` models the Python function of the same name, taking the
  file's text (the read itself is modelled at the call site) and the fallback
  title (`md_path.parent.name`, supplied by the caller).
* `FsNode` / `get_subfolders` model the filesystem-facing scan, with
  `Except PyErr` for the exceptions the Python code can raise.
* `generate_html` / `mainRun` model the renderer and the entry point.

Characters are handled at the `List Char` level (`String.data`); Python's
whitespace tests are modelled by their ASCII part, which covers every input
appearing in the claims.
-/

/-- ASCII part of Python's whitespace test (`str.strip`, regex `\s`). -/
def isPySpace (c : Char) : Bool :=
  c = ' ' || c = '\t' || c = '\n' || c = '\r' || c = '\x0b' || c = '\x0c'

/-- Python `str.strip()`: drop whitespace from both ends. -/
def pyStrip (l : List Char) : List Char :=
  ((l.dropWhile isPySpace).reverse.dropWhile isPySpace).reverse

/-- Python `str.split("\n")`: split on every newline; `"".split("\n") = [""]`. -/
def pySplitLines : List Char → List (List Char)
  | [] => [[]]
  | c :: t =>
    if c = '\n' then [] :: pySplitLines t
    else
      match pySplitLines t with
      | l :: ls => (c :: l) :: ls
      | [] => [[c]]

/-- Match of `#\s+(.+)$` against `'#' :: rest`, returning the capture group.
Derived from Python `re` semantics for this pattern: after the `#`, the
greedy `\s+` takes the maximal whitespace run (which may cross newlines);
`(.+)` then takes the maximal run of non-newline characters, and `$` holds at
its end.  When the whitespace run reaches the end of the string, `\s+`
backtracks to the last position whose character is not a newline (the
position must leave at least one whitespace character for `\s+`). -/
def matchHashAux (rest : List Char) : Option (List Char) :=
  if (rest.takeWhile isPySpace).isEmpty then none
  else if (rest.drop (rest.takeWhile isPySpace).length).isEmpty then
    match (rest.takeWhile isPySpace).tail.reverse.dropWhile (fun c => c = '\n') with
    | d :: _ => some [d]
    | [] => none
  else some ((rest.drop (rest.takeWhile isPySpace).length).takeWhile (fun c => c ≠ '\n'))

/-- Position after the current line: drop up to the first `'\n'`, then it. -/
def nextLine (l : List Char) : List Char :=
  (l.dropWhile (fun c => c ≠ '\n')).tail

/-- Fuel-driven scan of the line starts of `l` for the first match of the
multiline regex `^#\s+(.+)$` (`re.search(r"^#\s+(.+)$", content, re.MULTILINE)`).
`^` positions are exactly the line starts, visited left to right. -/
def searchTitleAux : Nat → List Char → Option (List Char)
  | 0, _ => none
  | _, [] => none
  | fuel + 1, c :: rest =>
    if c = '#' then
      match matchHashAux rest with
      | some g => some g
      | none => searchTitleAux fuel (nextLine (c :: rest))
    else searchTitleAux fuel (nextLine (c :: rest))

/-- Leftmost match of `^#\s+(.+)$` in multiline mode, capture group. -/
def searchTitle (l : List Char) : Option (List Char) :=
  searchTitleAux l.length l

/-- One pass of the description loop of `parse_markdown`:

    for line in lines:
        stripped = line.strip()
        if stripped.startswith("#"):
            if in_description: break
            in_description = True
            continue
        if in_description and stripped:
            description_lines.append(stripped)
        elif in_description and not stripped and description_lines:
            break
-/
def descLoop : List (List Char) → Bool → List (List Char) → List (List Char)
  | [], _, buf => buf
  | line :: rest, inDesc, buf =>
    let stripped := pyStrip line
    if stripped.head? = some '#' then
      if inDesc then buf else descLoop rest true buf
    else if inDesc && !stripped.isEmpty then
      descLoop rest inDesc (buf ++ [stripped])
    else if inDesc && stripped.isEmpty && !buf.isEmpty then
      buf
    else descLoop rest inDesc buf

/-- Result record of `parse_markdown` (the Python dict keys
`"title"` and `"description"`). -/
structure MdInfo where
  title : String
  description : String
deriving DecidableEq, Repr

/-- Model of `parse_markdown`.  The Python function reads the file and uses
`md_path.parent.name` as the fallback title; here the text and the fallback
are parameters and the read is modelled at the call site (`processItem`). -/
def parse_markdown (content : String) (fallback : String) : MdInfo :=
  let title :=
    match searchTitle content.data with
    | some g => String.mk (pyStrip g)
    | none => fallback
  let lines := pySplitLines content.data
  let bufFinal := descLoop lines false []
  { title := title
    description := String.mk (List.intercalate [' '] bufFinal) }

/-- One entry of the generated index: the Python dict
`{"title": ..., "description": ..., "folder": item.name}`. -/
structure Entry where
  folder : String
  title : String
  description : String
deriving DecidableEq, Repr

/-- Exceptions the script can raise (modelled abstractly). -/
inductive PyErr where
  /-- `NotADirectoryError`: `iterdir()` on a file, or writing below a file. -/
  | notADirectoryError
  /-- `IsADirectoryError`: `read_text` / `write_text` on a directory. -/
  | isADirectoryError
  /-- `FileNotFoundError`: writing into a directory that does not exist. -/
  | fileNotFoundError
  /-- `UnicodeDecodeError`: `read_text(encoding="utf-8")` on bad bytes. -/
  | unicodeDecodeError
deriving DecidableEq, Repr

/-- A filesystem node: a regular file (whose read either yields text or fails
to decode) or a directory with named children. -/
inductive FsNode where
  | file (content : Except Unit String)
  | dir (children : List (String × FsNode))

/-- Python string comparison `a <= b`: lexicographic by code point, a strict
prefix is smaller.  (`sorted` on the paths compares the final names this way,
since all scanned paths share the parent `site/`.) -/
def listLeB : List Char → List Char → Bool
  | [], _ => true
  | _ :: _, [] => false
  | a :: as, b :: bs => if a = b then listLeB as bs else decide (a < b)

/-- Order on directory items used by `sorted(SITE_DIR.iterdir())`. -/
def nameLe (a b : String × FsNode) : Prop :=
  listLeB a.1.data b.1.data = true

instance : DecidableRel nameLe := fun _ _ => inferInstanceAs (Decidable (_ = true))

/-- `sorted(SITE_DIR.iterdir())` (a stable ascending sort by name). -/
def sortByName (children : List (String × FsNode)) : List (String × FsNode) :=
  List.insertionSort nameLe children

/-- `item.name.startswith(".")`. -/
def startsWithDot (s : String) : Bool :=
  match s.data with
  | [] => false
  | c :: _ => c = '.'

/-- The fixed candidate list `["README.md", "description.md", "index.md"]`. -/
def candidateNames : List String :=
  ["README.md", "description.md", "index.md"]

/-- The summary-file search: the first candidate name for which
`(item / md_name).exists()` holds, with the node it resolves to.  Existence
is tested for any node kind, matching `Path.exists`. -/
def findCandidate (sub : List (String × FsNode)) : Option FsNode :=
  candidateNames.findSome? (fun n => List.lookup n sub)

/-- `md_path.read_text(encoding="utf-8")`. -/
def readNode : FsNode → Except PyErr String
  | .file (.ok s) => .ok s
  | .file (.error _) => .error .unicodeDecodeError
  | .dir _ => .error .isADirectoryError

/-- One iteration of the scan loop body for the item `(name, node)`:
`none` when the item is skipped (`continue`), otherwise the entry built for
it; errors from reading the summary file propagate. -/
def processItem (name : String) (node : FsNode) : Except PyErr (Option Entry) :=
  match node with
  | .file _ => .ok none
  | .dir sub =>
    if startsWithDot name then .ok none
    else
      match findCandidate sub with
      | some mdNode => do
          let text ← readNode mdNode
          let info := parse_markdown text name
          .ok (some { folder := name, title := info.title, description := info.description })
      | none => .ok (some { folder := name, title := name, description := "" })

/-- The scan loop over the sorted items; the first raised exception aborts. -/
def scanItems : List (String × FsNode) → Except PyErr (List Entry)
  | [] => .ok []
  | (name, node) :: rest => do
      let e ← processItem name node
      let es ← scanItems rest
      match e with
      | some entry => .ok (entry :: es)
      | none => .ok es

/-- Model of `get_subfolders`, taking the state of the `site` path:
`none` when it does not exist, otherwise the node found there. -/
def get_subfolders (site : Option FsNode) : Except PyErr (List Entry) :=
  match site with
  | none => .ok []
  | some (.file _) => .error .notADirectoryError
  | some (.dir children) => scanItems (sortByName children)

/-- `desc_html`: the description paragraph, or empty when the description is
empty (Python truthiness of the string). -/
def descHtmlOf (e : Entry) : String :=
  if e.description = "" then "" else
    "<p class=\"description\">" ++ e.description ++ "</p>"

/-- The list item emitted for one entry (the per-entry f-string). -/
def entryHtml (e : Entry) : String :=
  "\n        <li class=\"entry\">\n            <a href=\"" ++ e.folder ++
    "/index.html\">\n                <h2>" ++ e.title ++
    "</h2>\n                " ++ descHtmlOf e ++
    "\n            </a>\n        </li>\n"

/-- The `entries_html += ...` loop: concatenation of the items in order. -/
def itemsHtml : List Entry → String
  | [] => ""
  | e :: rest => entryHtml e ++ itemsHtml rest

/-- `entries_html`: concatenation of the items, or the placeholder item when
the entry list is empty (`if not entries`). -/
def entriesHtml (entries : List Entry) : String :=
  if entries.isEmpty then "<li class=\"empty\">No content yet.</li>"
  else itemsHtml entries

/-- Everything of the page skeleton before `entries_html` (the f-string with
its doubled braces resolved to literal braces, written `\x7b` / `\x7d`). -/
def htmlPrefix : String :=
  "<!DOCTYPE html>\n<html lang=\"en\">\n<head>\n    <meta charset=\"UTF-8\">\n    <meta name=\"viewport\" content=\"width=device-width, initial-scale=1.0\">\n    <title>Published Content</title>\n    <style>\n        :root \x7b\n            --bg-color: #f5f5f5;\n            --text-color: #333;\n            --link-color: #0066cc;\n            --card-bg: #fff;\n            --border-color: #ddd;\n        \x7d\n        @media (prefers-color-scheme: dark) \x7b\n            :root \x7b\n                --bg-color: #1a1a1a;\n                --text-color: #e0e0e0;\n                --link-color: #6db3f2;\n                --card-bg: #2d2d2d;\n                --border-color: #444;\n            \x7d\n        \x7d\n        * \x7b\n            box-sizing: border-box;\n        \x7d\n        body \x7b\n            font-family: -apple-system, BlinkMacSystemFont, \"Segoe UI\", Roboto, Helvetica, Arial, sans-serif;\n            max-width: 800px;\n            margin: 0 auto;\n            padding: 2rem;\n            background-color: var(--bg-color);\n            color: var(--text-color);\n            line-height: 1.6;\n        \x7d\n        h1 \x7b\n            border-bottom: 2px solid var(--border-color);\n            padding-bottom: 0.5rem;\n        \x7d\n        ul \x7b\n            list-style: none;\n            padding: 0;\n        \x7d\n        .entry \x7b\n            margin: 1rem 0;\n            padding: 1rem;\n            background-color: var(--card-bg);\n            border: 1px solid var(--border-color);\n            border-radius: 8px;\n            transition: box-shadow 0.2s;\n        \x7d\n        .entry:hover \x7b\n            box-shadow: 0 4px 12px rgba(0, 0, 0, 0.15);\n        \x7d\n        .entry a \x7b\n            text-decoration: none;\n            color: inherit;\n            display: block;\n        \x7d\n        .entry h2 \x7b\n            margin: 0 0 0.5rem 0;\n            color: var(--link-color);\n            font-size: 1.25rem;\n        \x7d\n        .description \x7b\n            margin: 0;\n            color: var(--text-color);\n            opacity: 0.8;\n        \x7d\n        .empty \x7b\n            color: var(--text-color);\n            opacity: 0.6;\n            font-style: italic;\n        \x7d\n    </style>\n</head>\n<body>\n    <h1>Published Content</h1>\n    <ul>\n"

/-- Everything of the page skeleton after `entries_html`. -/
def htmlSuffix : String :=
  "\n    </ul>\n</body>\n</html>\n"

/-- Model of `generate_html`. -/
def generate_html (entries : List Entry) : String :=
  htmlPrefix ++ entriesHtml entries ++ htmlSuffix

/-- The final `output_path.write_text(html, encoding="utf-8")` on
`site/index.html`: succeeds only when `site` exists as a directory and
`index.html` there is not itself a directory. -/
def writeIndex : Option FsNode → Except PyErr Unit
  | none => .error .fileNotFoundError
  | some (.file _) => .error .notADirectoryError
  | some (.dir children) =>
    match List.lookup "index.html" children with
    | some (.dir _) => .error .isADirectoryError
    | _ => .ok ()

/-- Model of `main` (named `mainRun` since `main` is reserved in Lean):
scan, render, write; returns the text written to `site/index.html` when the
run completes. -/
def mainRun (site : Option FsNode) : Except PyErr String := do
  let entries ← get_subfolders site
  let html := generate_html entries
  writeIndex site
  pure html

/-! ## Specification-side definitions

The definitions below restate parts of the specification in independent form;
the theorems compare them with the model derived from the source. -/

/-- Joins lines back, prepending a newline before each one. -/
def rejoinTail : List (List Char) → List Char
  | [] => []
  | l :: ls => '\n' :: (l ++ rejoinTail ls)

/-- Inverse of `pySplitLines`: lines joined by single newlines. -/
def joinLines : List (List Char) → List Char
  | [] => []
  | l :: ls => l ++ rejoinTail ls

/-- Specification-side reading of `#\s+(.+)$` at a position just after the
`#`: one or more whitespace characters, then the capture; on a whitespace run
reaching the end of text, the capture is the last non-newline character of
the run, which must lie strictly after its first character. -/
def specHashMatch (rest : List Char) : Option (List Char) :=
  match rest with
  | [] => none
  | c :: cs =>
    if isPySpace c then
      if (rest.dropWhile isPySpace).isEmpty then
        match (cs.filter (fun d => d ≠ '\n')).getLast? with
        | some d => some [d]
        | none => none
      else some ((rest.dropWhile isPySpace).takeWhile (fun d => d ≠ '\n'))
    else none

/-- Specification-side title search: walk the document's lines in order; at
each line beginning with `#`, try the match against the remainder of the
whole document (whitespace may span line breaks); otherwise move on. -/
def titleFromLines : List (List Char) → Option (List Char)
  | [] => none
  | line :: rest =>
    if line.head? = some '#' then
      match specHashMatch (line.tail ++ rejoinTail rest) with
      | some g => some g
      | none => titleFromLines rest
    else titleFromLines rest

/-- Specification-side title: trimmed capture of the first line-start match
of `one # character, one or more whitespace characters, then text`, searched
over the whole document; the fallback when there is no match. -/
def specTitle (content fallback : String) : String :=
  match titleFromLines (pySplitLines content.data) with
  | some g => String.mk (pyStrip g)
  | none => fallback

/-- State of the description scan of spec section 4.1: either still scanning
(with the in-description flag and the buffer) or stopped (with the final
buffer). -/
inductive DState where
  | running (inDesc : Bool) (buf : List (List Char))
  | stopped (buf : List (List Char))

/-- One line of the description state machine, following the spec bullets:
a trimmed `#` line stops when in-description and otherwise sets the flag; a
non-empty trimmed line in-description is buffered; a blank line after
buffered content stops; anything else continues. -/
def dstep : DState → List Char → DState
  | .stopped buf, _ => .stopped buf
  | .running inDesc buf, line =>
    let t := pyStrip line
    if t.head? = some '#' then
      if inDesc then .stopped buf else .running true buf
    else if inDesc = true ∧ t ≠ [] then .running inDesc (buf ++ [t])
    else if inDesc = true ∧ t = [] ∧ buf ≠ [] then .stopped buf
    else .running inDesc buf

/-- The buffer carried by a scan state. -/
def dbuf : DState → List (List Char)
  | .running _ buf => buf
  | .stopped buf => buf

/-- Specification-side description: run the state machine over the lines and
join the buffered lines with single spaces. -/
def specDescription (content : String) : String :=
  String.mk (List.intercalate [' ']
    (dbuf ((pySplitLines content.data).foldl dstep (.running false []))))

/-- Claim C1's per-line title rule, read literally: one or more `#`
characters, one or more spaces, then text; the title is the trailing text,
trimmed. -/
def c1LineTitle (l : List Char) : Option (List Char) :=
  let hashes := l.takeWhile (fun c => c = '#')
  let afterH := l.drop hashes.length
  let sp := afterH.takeWhile (fun c => c = ' ')
  let txt := afterH.drop sp.length
  if hashes.isEmpty || sp.isEmpty || txt.isEmpty then none
  else some (pyStrip txt)

/-- Claim C1's title rule over a document: the rule of the first matching
line, else the fallback. -/
def titleC1 (content fallback : String) : String :=
  match (pySplitLines content.data).findSome? c1LineTitle with
  | some t => String.mk t
  | none => fallback

/-- Spec section 4.2's candidate search, written as the ordered cascade:
`README.md` if present, else `description.md` if present, else `index.md`. -/
def firstCandidateSpec (sub : List (String × FsNode)) : Option FsNode :=
  if (List.lookup "README.md" sub).isSome then List.lookup "README.md" sub
  else if (List.lookup "description.md" sub).isSome then List.lookup "description.md" sub
  else List.lookup "index.md" sub

/-- Whether `pat` is an initial segment of `l`. -/
def leadsWith : List Char → List Char → Bool
  | [], _ => true
  | _ :: _, [] => false
  | a :: as, b :: bs => a == b && leadsWith as bs

/-- Whether `pat` occurs contiguously somewhere in the second list. -/
def occursIn (pat : List Char) : List Char → Bool
  | [] => pat.isEmpty
  | c :: t => leadsWith pat (c :: t) || occursIn pat t

/-- Substring test on strings, used to state what the page contains. -/
def occursInS (pat s : String) : Bool :=
  occursIn pat.data s.data

/-- The items the scan keeps: directories whose name has no leading dot. -/
def keepChild (p : String × FsNode) : Bool :=
  (match p.2 with
   | .dir _ => true
   | .file _ => false) && !startsWithDot p.1

/-! ## Helper lemmas -/

theorem foldl_dstep_stopped (ls : List (List Char)) (buf : List (List Char)) :
    ls.foldl dstep (.stopped buf) = .stopped buf := by
  induction ls with
  | nil => rfl
  | cons l rest ih => simpa [dstep] using ih

theorem descLoop_eq_machine : ∀ (ls : List (List Char)) (inDesc : Bool) (buf : List (List Char)),
    descLoop ls inDesc buf = dbuf (ls.foldl dstep (.running inDesc buf)) := by
  intro ls
  induction ls with
  | nil => intro inDesc buf; rfl
  | cons line rest ih =>
    intro inDesc buf
    by_cases hd : (pyStrip line).head? = some '#'
    · by_cases hi : inDesc
      · subst hi
        simp [descLoop, dstep, hd, foldl_dstep_stopped, dbuf]
      · simp only [Bool.not_eq_true] at hi
        subst hi
        simp [descLoop, dstep, hd, ih]
    · by_cases hi : inDesc
      · subst hi
        by_cases he : pyStrip line = []
        · by_cases hb : buf = []
          · simp [descLoop, dstep, hd, he, hb, ih]
          · simp [descLoop, dstep, hd, he, hb, foldl_dstep_stopped, dbuf]
        · simp [descLoop, dstep, hd, he, ih]
      · simp only [Bool.not_eq_true] at hi
        subst hi
        simp [descLoop, dstep, hd, ih]

/-! ## Claim theorems (first batch) -/

/-- C2: the description is computed by the spec's state machine; the document
with a heading and one paragraph yields that paragraph joined by spaces, and
a heading-only document yields the empty description. -/
theorem C2_description_state_machine :
    (∀ content fallback : String,
      (parse_markdown content fallback).description = specDescription content)
    ∧ (parse_markdown "# T\n\nLine one.\nLine two.\n\nIgnored." "fb").description
        = "Line one. Line two."
    ∧ (parse_markdown "# T\n" "fb").description = "" := by
  refine ⟨?_, rfl, rfl⟩
  intro content fallback
  simp [parse_markdown, specDescription, descLoop_eq_machine]

/-- C3 counterexample: in the claim's own scenario (a later heading reached
while no description text has been collected) the scan stops with the empty
description instead of restarting capture at that heading (which would have
produced "text"). -/
theorem C3_counterexample :
    parse_markdown "# A\n# B\ntext" "fb" = { title := "A", description := "" }
    ∧ ("" : String) ≠ "text" :=
  ⟨rfl, by decide⟩

/-- C3 amended: once the in-description flag is set, any further line whose
trimmed form starts with `#` stops the scan immediately with the buffer as it
stands — even when the buffer is empty; capture is never restarted. -/
theorem C3_later_heading_stops (line : List Char) (rest : List (List Char))
    (buf : List (List Char)) (h : (pyStrip line).head? = some '#') :
    descLoop (line :: rest) true buf = buf := by
  simp [descLoop, h]

theorem C3_later_heading_stops_witness :
    descLoop ["# B".data, "text".data] true [] = [] :=
  C3_later_heading_stops "# B".data ["text".data] [] (by decide)

/-- C4 counterexample: a root that exists as a plain file "does not exist as
a directory", yet the scan raises instead of returning the empty list; and
with the root missing entirely the placeholder page is never written — the
final write fails. -/
theorem C4_counterexample :
    get_subfolders (some (.file (.ok ""))) = .error .notADirectoryError
    ∧ mainRun none = .error .fileNotFoundError :=
  ⟨rfl, rfl⟩

set_option maxRecDepth 20000 in
/-- C4 amended: when the root does not exist at all the scan returns the
empty list and the run renders the placeholder page, but then aborts at the
final write (the output directory is missing); when the root exists as a
non-directory the scan itself raises. -/
theorem C4_missing_root :
    get_subfolders none = .ok []
    ∧ occursInS "No content yet." (generate_html []) = true
    ∧ mainRun none = .error .fileNotFoundError
    ∧ (∀ c, get_subfolders (some (.file c)) = .error .notADirectoryError) :=
  ⟨rfl, by decide, rfl, fun _ => rfl⟩

theorem mainRun_eq (site : Option FsNode) : mainRun site =
    match get_subfolders site, writeIndex site with
    | .error e, _ => .error e
    | .ok _, .error e => .error e
    | .ok es, .ok _ => .ok (generate_html es) := by
  unfold mainRun
  cases hs : get_subfolders site with
  | error e => rfl
  | ok es =>
    cases hw : writeIndex site with
    | error e => rfl
    | ok u => rfl

/-- C9: a scan-phase failure (e.g. a summary file that fails to decode)
propagates: the run returns that error and nothing is written; and any
completed run wrote exactly the full rendered index of the scanned entries. -/
theorem C9_scan_failure_aborts :
    ∀ site : Option FsNode,
      (∀ e, get_subfolders site = .error e → mainRun site = .error e)
      ∧ (∀ out, mainRun site = .ok out →
          ∃ es, get_subfolders site = .ok es ∧ out = generate_html es) := by
  intro site
  rw [mainRun_eq site]
  constructor
  · intro e h
    rw [h]
  · intro out h
    cases hs : get_subfolders site with
    | error e => rw [hs] at h; exact absurd h (by simp)
    | ok es =>
      rw [hs] at h
      cases hw : writeIndex site with
      | error e => rw [hw] at h; exact absurd h (by simp)
      | ok u =>
        rw [hw] at h
        simp only [Except.ok.injEq] at h
        exact ⟨es, rfl, h.symm⟩

theorem C9_scan_failure_aborts_witness :
    mainRun (some (.dir [("p", .dir [("README.md", .file (.error ()))])]))
      = .error .unicodeDecodeError :=
  (C9_scan_failure_aborts _).1 .unicodeDecodeError rfl

/-- C10: the candidate check tests only existence, so a directory named
`README.md` inside a subfolder is selected as the summary file; reading it
raises `IsADirectoryError` and the run aborts rather than falling back. -/
theorem C10_readme_directory_aborts :
    (∀ (name : String) (sub : List (String × FsNode)) (d : List (String × FsNode)),
      startsWithDot name = false → List.lookup "README.md" sub = some (.dir d) →
        processItem name (.dir sub) = .error .isADirectoryError)
    ∧ mainRun (some (.dir [("proj", .dir [("README.md", .dir [])])]))
        = .error .isADirectoryError := by
  constructor
  · intro name sub d hdot hlook
    simp only [processItem, hdot, Bool.false_eq_true, if_false, findCandidate, candidateNames,
      List.findSome?, hlook]
    rfl
  · rfl

theorem C10_readme_directory_aborts_witness :
    processItem "proj" (.dir [("README.md", .dir [])]) = .error .isADirectoryError :=
  C10_readme_directory_aborts.1 "proj" [("README.md", .dir [])] [] rfl rfl

/-- C6: the summary file is the first present candidate in the fixed order
`README.md`, `description.md`, `index.md`; its text goes through the
Metadata Extractor with the directory name as fallback; with no candidate the
entry is folder-name-only metadata built without any read; and the entry's
`folder` field is always the directory's own name. -/
theorem C6_candidate_selection :
    ∀ (name : String) (sub : List (String × FsNode)), startsWithDot name = false →
      (findCandidate sub = firstCandidateSpec sub)
      ∧ (∀ mdNode text, findCandidate sub = some mdNode → readNode mdNode = .ok text →
          processItem name (.dir sub)
            = .ok (some { folder := name, title := (parse_markdown text name).title,
                          description := (parse_markdown text name).description }))
      ∧ (findCandidate sub = none →
          processItem name (.dir sub) = .ok (some { folder := name, title := name, description := "" })) := by
  intro name sub hdot
  refine ⟨?_, ?_, ?_⟩
  · cases h1 : List.lookup "README.md" sub with
    | some n => simp [findCandidate, candidateNames, firstCandidateSpec, h1]
    | none =>
      cases h2 : List.lookup "description.md" sub with
      | some n => simp [findCandidate, candidateNames, firstCandidateSpec, h1, h2]
      | none =>
        cases h3 : List.lookup "index.md" sub with
        | some n => simp [findCandidate, candidateNames, firstCandidateSpec, h1, h2, h3]
        | none => simp [findCandidate, candidateNames, firstCandidateSpec, h1, h2, h3]
  · intro mdNode text hfind hread
    simp only [processItem, hdot, Bool.false_eq_true, if_false, hfind, hread]
    rfl
  · intro hfind
    simp [processItem, hdot, hfind]

theorem C6_candidate_selection_witness :
    processItem "proj" (.dir [("README.md", .file (.ok "# Hi\n\nYo."))])
      = .ok (some { folder := "proj", title := "Hi", description := "Yo." }) :=
  (C6_candidate_selection "proj" [("README.md", .file (.ok "# Hi\n\nYo."))] rfl).2.1
    (.file (.ok "# Hi\n\nYo.")) "# Hi\n\nYo." rfl rfl

theorem occursIn_nil_pat : ∀ h : List Char, occursIn [] h = true := by
  intro h
  cases h <;> simp [occursIn, leadsWith]

theorem leadsWith_self_append : ∀ (n t : List Char), leadsWith n (n ++ t) = true := by
  intro n
  induction n with
  | nil => intro t; rfl
  | cons a as ih => intro t; simp [leadsWith, ih]

theorem leadsWith_append_right : ∀ (n m t : List Char), leadsWith n m = true →
    leadsWith n (m ++ t) = true := by
  intro n
  induction n with
  | nil => intro m t _; rfl
  | cons a as ih =>
    intro m t h
    cases m with
    | nil => simp [leadsWith] at h
    | cons b bs =>
      simp only [leadsWith, Bool.and_eq_true, beq_iff_eq] at h
      simp [leadsWith, h.1, ih bs t h.2]

theorem occursIn_prefix_case (n t : List Char) : occursIn n (n ++ t) = true := by
  cases n with
  | nil => exact occursIn_nil_pat t
  | cons a as =>
    simp only [occursIn, List.cons_append, Bool.or_eq_true]
    exact Or.inl (by simpa using leadsWith_self_append (a :: as) t)

theorem occursIn_append_left (n s h : List Char) (hh : occursIn n h = true) :
    occursIn n (s ++ h) = true := by
  induction s with
  | nil => simpa using hh
  | cons c cs ih => simp [occursIn, ih]

theorem occursIn_append_right (n h t : List Char) (hh : occursIn n h = true) :
    occursIn n (h ++ t) = true := by
  induction h with
  | nil =>
    simp only [occursIn, List.isEmpty_eq_true] at hh
    subst hh
    exact occursIn_nil_pat t
  | cons c h' ih =>
    simp only [occursIn, Bool.or_eq_true] at hh
    rcases hh with hl | ho
    · have := leadsWith_append_right n (c :: h') t hl
      simp only [List.cons_append] at this
      simp [occursIn, this]
    · simp [occursIn, ih ho]

theorem occursIn_decomp (n s t h : List Char) (hd : h = s ++ (n ++ t)) :
    occursIn n h = true := by
  subst hd
  exact occursIn_append_left n s (n ++ t) (occursIn_prefix_case n t)

theorem occursIn_infix (n s h t : List Char) (hh : occursIn n h = true) :
    occursIn n (s ++ h ++ t) = true := by
  rw [List.append_assoc]
  exact occursIn_append_left n s (h ++ t) (occursIn_append_right n h t hh)

theorem itemsHtml_decomp (entries : List Entry) (e : Entry) (hmem : e ∈ entries) :
    ∃ s t, (itemsHtml entries).data = s ++ ((entryHtml e).data ++ t) := by
  induction entries with
  | nil => cases hmem
  | cons x rest ih =>
    rcases List.mem_cons.mp hmem with rfl | hr
    · exact ⟨[], (itemsHtml rest).data, by simp [itemsHtml, String.data_append]⟩
    · rcases ih hr with ⟨s, t, hst⟩
      exact ⟨(entryHtml x).data ++ s, t,
        by simp [itemsHtml, String.data_append, hst, List.append_assoc]⟩

theorem entriesHtml_data_of_ne (entries : List Entry) (hne : entries ≠ []) :
    (entriesHtml entries).data = (itemsHtml entries).data := by
  simp [entriesHtml, List.isEmpty_iff, hne]

theorem occursIn_page (entries : List Entry) (e : Entry) (hmem : e ∈ entries)
    (needle : String) (hin : occursIn needle.data (entryHtml e).data = true) :
    occursInS needle (generate_html entries) = true := by
  have hne : entries ≠ [] := by
    intro h
    subst h
    cases hmem
  rcases itemsHtml_decomp entries e hmem with ⟨s, t, hst⟩
  unfold occursInS generate_html
  rw [String.data_append, String.data_append, entriesHtml_data_of_ne entries hne, hst]
  exact occursIn_append_right _ _ _
    (occursIn_append_left _ _ _
      (occursIn_append_left _ _ _ (occursIn_append_right _ _ _ hin)))

theorem entryHtml_link (e : Entry) :
    occursIn ("href=\"" ++ e.folder ++ "/index.html\"" : String).data (entryHtml e).data = true := by
  apply occursIn_decomp _ (("\n        <li class=\"entry\">\n            <a " : String).data)
    ((">\n                <h2>" : String).data ++ (e.title.data ++
      (("</h2>\n                " : String).data ++ ((descHtmlOf e).data ++
        ("\n            </a>\n        </li>\n" : String).data))))
  have m1 : ("\n        <li class=\"entry\">\n            <a href=\"" : String).data
      = ("\n        <li class=\"entry\">\n            <a " : String).data
        ++ ("href=\"" : String).data := by decide
  have m2 : ("/index.html\">\n                <h2>" : String).data
      = ("/index.html\"" : String).data ++ (">\n                <h2>" : String).data := by decide
  simp [entryHtml, String.data_append, m1, m2, List.append_assoc]

theorem entryHtml_heading (e : Entry) :
    occursIn ("<h2>" ++ e.title ++ "</h2>" : String).data (entryHtml e).data = true := by
  apply occursIn_decomp _
    (("\n        <li class=\"entry\">\n            <a href=\"" : String).data ++
      (e.folder.data ++ ("/index.html\">\n                " : String).data))
    (("\n                " : String).data ++ ((descHtmlOf e).data ++
      ("\n            </a>\n        </li>\n" : String).data))
  have m1 : ("/index.html\">\n                <h2>" : String).data
      = ("/index.html\">\n                " : String).data ++ ("<h2>" : String).data := by decide
  have m2 : ("</h2>\n                " : String).data
      = ("</h2>" : String).data ++ ("\n                " : String).data := by decide
  simp [entryHtml, String.data_append, m1, m2, List.append_assoc]

theorem entryHtml_description (e : Entry) (hd : e.description ≠ "") :
    occursIn ("<p class=\"description\">" ++ e.description ++ "</p>" : String).data
      (entryHtml e).data = true := by
  apply occursIn_decomp _
    (("\n        <li class=\"entry\">\n            <a href=\"" : String).data ++
      (e.folder.data ++ (("/index.html\">\n                <h2>" : String).data ++
        (e.title.data ++ ("</h2>\n                " : String).data))))
    (("\n            </a>\n        </li>\n" : String).data)
  simp [entryHtml, descHtmlOf, hd, String.data_append, List.append_assoc]

/-- C7: every rendered entry carries a link to `folder/index.html` and a
heading with its title; the description paragraph appears exactly when the
description is non-empty, and all fields are embedded verbatim. -/
theorem C7_renderer (entries : List Entry) (e : Entry) (hmem : e ∈ entries) :
    occursInS ("href=\"" ++ e.folder ++ "/index.html\"") (generate_html entries) = true
    ∧ occursInS ("<h2>" ++ e.title ++ "</h2>") (generate_html entries) = true
    ∧ (e.description ≠ "" →
        occursInS ("<p class=\"description\">" ++ e.description ++ "</p>")
          (generate_html entries) = true)
    ∧ (e.description = "" →
        entryHtml e = "\n        <li class=\"entry\">\n            <a href=\"" ++ e.folder
          ++ "/index.html\">\n                <h2>" ++ e.title
          ++ "</h2>\n                \n            </a>\n        </li>\n") := by
  refine ⟨occursIn_page entries e hmem _ (entryHtml_link e),
          occursIn_page entries e hmem _ (entryHtml_heading e),
          fun hde => occursIn_page entries e hmem _ (entryHtml_description e hde), ?_⟩
  intro h0
  apply String.ext
  have m : ("</h2>\n                \n            </a>\n        </li>\n" : String).data
      = ("</h2>\n                " : String).data
        ++ ("\n            </a>\n        </li>\n" : String).data := by decide
  simp [entryHtml, descHtmlOf, h0, String.data_append, m, List.append_assoc]

theorem C7_renderer_witness :
    occursInS "href=\"proj1/index.html\""
      (generate_html [{ folder := "proj1", title := "Proj One", description := "A demo." }]) = true
    ∧ occursInS "<h2>Proj One</h2>"
      (generate_html [{ folder := "proj1", title := "Proj One", description := "A demo." }]) = true
    ∧ occursInS "<p class=\"description\">A demo.</p>"
      (generate_html [{ folder := "proj1", title := "Proj One", description := "A demo." }]) = true := by
  have h := C7_renderer [{ folder := "proj1", title := "Proj One", description := "A demo." }]
    { folder := "proj1", title := "Proj One", description := "A demo." } (by simp)
  have e1 : ("href=\"" ++ "proj1" ++ "/index.html\"" : String) = "href=\"proj1/index.html\"" := by decide
  have e2 : ("<h2>" ++ "Proj One" ++ "</h2>" : String) = "<h2>Proj One</h2>" := by decide
  have e3 : ("<p class=\"description\">" ++ "A demo." ++ "</p>" : String)
      = "<p class=\"description\">A demo.</p>" := by decide
  exact ⟨e1 ▸ h.1, e2 ▸ h.2.1, e3 ▸ h.2.2.1 (by decide)⟩

theorem listLeB_total : ∀ a b : List Char, listLeB a b = true ∨ listLeB b a = true := by
  intro a
  induction a with
  | nil => intro b; left; rfl
  | cons x xs ih =>
    intro b
    cases b with
    | nil => right; rfl
    | cons y ys =>
      by_cases hxy : x = y
      · subst hxy
        rcases ih ys with h | h
        · left; simpa [listLeB] using h
        · right; simpa [listLeB] using h
      · rcases lt_or_gt_of_ne hxy with h | h
        · left; simp [listLeB, hxy, h]
        · right; simp [listLeB, Ne.symm hxy, h]

theorem listLeB_trans : ∀ a b c : List Char, listLeB a b = true → listLeB b c = true →
    listLeB a c = true := by
  intro a
  induction a with
  | nil => intro b c _ _; rfl
  | cons x xs ih =>
    intro b c hab hbc
    cases b with
    | nil => simp [listLeB] at hab
    | cons y ys =>
      cases c with
      | nil => simp [listLeB] at hbc
      | cons z zs =>
        by_cases hxy : x = y <;> by_cases hyz : y = z
        · subst hxy; subst hyz
          simp only [listLeB, if_pos rfl] at hab hbc ⊢
          exact ih ys zs hab hbc
        · subst hxy
          simp only [listLeB, if_pos rfl] at hab
          simp only [listLeB, if_neg hyz, decide_eq_true_eq] at hbc
          simp [listLeB, hyz, hbc]
        · subst hyz
          simp only [listLeB, if_neg hxy, decide_eq_true_eq] at hab
          simp [listLeB, hxy, hab]
        · simp only [listLeB, if_neg hxy, decide_eq_true_eq] at hab
          simp only [listLeB, if_neg hyz, decide_eq_true_eq] at hbc
          have hxz : x < z := lt_trans hab hbc
          simp [listLeB, ne_of_lt hxz, hxz]

theorem listLeB_ne_lex : ∀ a b : List Char, listLeB a b = true → a ≠ b →
    List.Lex (fun c d : Char => c < d) a b := by
  intro a
  induction a with
  | nil =>
    intro b _ hne
    cases b with
    | nil => exact absurd rfl hne
    | cons y ys => exact List.Lex.nil
  | cons x xs ih =>
    intro b hle hne
    cases b with
    | nil => simp [listLeB] at hle
    | cons y ys =>
      by_cases hxy : x = y
      · subst hxy
        simp only [listLeB, if_pos rfl] at hle
        have hne' : xs ≠ ys := fun h => hne (by rw [h])
        exact List.Lex.cons (ih ys hle hne')
      · simp only [listLeB, if_neg hxy, decide_eq_true_eq] at hle
        exact List.Lex.rel hle

theorem string_lt_of_nameLe (a b : String) (hle : listLeB a.data b.data = true)
    (hne : a ≠ b) : a < b := by
  rw [String.lt_iff_toList_lt]
  have hne' : a.toList ≠ b.toList := fun h => hne (String.toList_inj.mp h)
  exact listLeB_ne_lex a.data b.data hle hne'

theorem scanItems_cons (name : String) (node : FsNode) (rest : List (String × FsNode)) :
    scanItems ((name, node) :: rest) =
      match processItem name node with
      | .error e => .error e
      | .ok none => scanItems rest
      | .ok (some entry) =>
        match scanItems rest with
        | .error e => .error e
        | .ok es => .ok (entry :: es) := by
  cases hp : processItem name node with
  | error e => simp only [scanItems, hp]; rfl
  | ok oe =>
    cases oe with
    | none =>
      simp only [scanItems, hp]
      cases hs : scanItems rest with
      | error e => rfl
      | ok es => rfl
    | some entry =>
      simp only [scanItems, hp]
      cases hs : scanItems rest with
      | error e => rfl
      | ok es => rfl

theorem scanItems_folders : ∀ (l : List (String × FsNode)) (es : List Entry),
    scanItems l = .ok es →
      es.map (fun e => e.folder) = (l.filter keepChild).map Prod.fst := by
  intro l
  induction l with
  | nil =>
    intro es h
    simp only [scanItems, Except.ok.injEq] at h
    subst h
    rfl
  | cons p rest ih =>
    intro es h
    obtain ⟨name, node⟩ := p
    rw [scanItems_cons] at h
    cases node with
    | file c =>
      have hp : processItem name (.file c) = .ok none := rfl
      rw [hp] at h
      have : keepChild (name, FsNode.file c) = false := by simp [keepChild]
      simp only [List.filter_cons, this, Bool.false_eq_true, if_false]
      exact ih es h
    | dir sub =>
      by_cases hdot : startsWithDot name
      · have hp : processItem name (.dir sub) = .ok none := by
          simp [processItem, hdot]
        rw [hp] at h
        have : keepChild (name, FsNode.dir sub) = false := by simp [keepChild, hdot]
        simp only [List.filter_cons, this, Bool.false_eq_true, if_false]
        exact ih es h
      · have hkeep : keepChild (name, FsNode.dir sub) = true := by
          simp [keepChild, hdot]
        have hdot' : startsWithDot name = false := by
          simpa using hdot
        cases hfc : findCandidate sub with
        | some mdNode =>
          cases hr : readNode mdNode with
          | error e =>
            have hp : processItem name (.dir sub) = .error e := by
              simp only [processItem, hdot', Bool.false_eq_true, if_false, hfc, hr]
              rfl
            rw [hp] at h
            cases h
          | ok text =>
            have hp : processItem name (.dir sub)
                = .ok (some { folder := name, title := (parse_markdown text name).title,
                              description := (parse_markdown text name).description }) := by
              simp only [processItem, hdot', Bool.false_eq_true, if_false, hfc, hr]
              rfl
            rw [hp] at h
            cases hs : scanItems rest with
            | error e => rw [hs] at h; cases h
            | ok es' =>
              rw [hs] at h
              simp only [Except.ok.injEq] at h
              subst h
              simp only [List.map_cons, List.filter_cons, hkeep, if_true, List.map_cons]
              exact congrArg (name :: ·) (ih es' hs)
        | none =>
          have hp : processItem name (.dir sub)
              = .ok (some { folder := name, title := name, description := "" }) := by
            simp only [processItem, hdot', Bool.false_eq_true, if_false, hfc]
          rw [hp] at h
          cases hs : scanItems rest with
          | error e => rw [hs] at h; cases h
          | ok es' =>
            rw [hs] at h
            simp only [Except.ok.injEq] at h
            subst h
            simp only [List.map_cons, List.filter_cons, hkeep, if_true, List.map_cons]
            exact congrArg (name :: ·) (ih es' hs)

/-- C5: a successful scan lists exactly the non-hidden immediate
subdirectories (files are skipped, as is any name with a leading dot), in
strictly ascending name order; folders `b`, `a`, `c` come out as `a, b, c`. -/
theorem C5_scanner_order :
    (∀ (children : List (String × FsNode)) (es : List Entry),
      (children.map Prod.fst).Nodup →
      get_subfolders (some (.dir children)) = .ok es →
        List.Perm (es.map fun e => e.folder) ((children.filter keepChild).map Prod.fst)
        ∧ List.Pairwise (fun a b : String => a < b) (es.map fun e => e.folder))
    ∧ get_subfolders (some (.dir [("b", .dir []), ("a", .dir []), ("c", .dir [])]))
        = .ok [{ folder := "a", title := "a", description := "" },
               { folder := "b", title := "b", description := "" },
               { folder := "c", title := "c", description := "" }] := by
  constructor
  · intro children es hnodup hok
    have hscan : scanItems (sortByName children) = .ok es := hok
    have hmap := scanItems_folders _ es hscan
    haveI htot : IsTotal (String × FsNode) nameLe :=
      ⟨fun a b => listLeB_total a.1.data b.1.data⟩
    haveI htrans : IsTrans (String × FsNode) nameLe :=
      ⟨fun _ _ _ hab hbc => listLeB_trans _ _ _ hab hbc⟩
    have hsorted : List.Pairwise nameLe (sortByName children) :=
      List.sorted_insertionSort nameLe children
    have hperm : List.Perm (sortByName children) children :=
      List.perm_insertionSort nameLe children
    constructor
    · rw [hmap]
      exact List.Perm.map Prod.fst (List.Perm.filter keepChild hperm)
    · rw [hmap]
      have h1 : List.Pairwise nameLe ((sortByName children).filter keepChild) :=
        List.Pairwise.sublist (List.filter_sublist _) hsorted
      have h3 : List.Pairwise (fun a b : String => listLeB a.data b.data = true)
          (((sortByName children).filter keepChild).map Prod.fst) :=
        List.pairwise_map.mpr h1
      have hnd : (((sortByName children).filter keepChild).map Prod.fst).Nodup := by
        have hpm : List.Perm ((sortByName children).map Prod.fst) (children.map Prod.fst) :=
          List.Perm.map Prod.fst hperm
        have hnd1 : ((sortByName children).map Prod.fst).Nodup := hpm.nodup_iff.mpr hnodup
        exact List.Nodup.sublist (List.Sublist.map Prod.fst (List.filter_sublist _)) hnd1
      exact List.Pairwise.imp₂ (fun a b hle hne => string_lt_of_nameLe a b hle hne) h3 hnd
  · rfl

theorem C5_scanner_order_witness :
    List.Perm
      (([{ folder := "a", title := "a", description := "" },
         { folder := "b", title := "b", description := "" },
         { folder := "c", title := "c", description := "" }] : List Entry).map fun e => e.folder)
      (([("b", FsNode.dir []), ("a", FsNode.dir []), ("c", FsNode.dir [])].filter
          keepChild).map Prod.fst)
    ∧ List.Pairwise (fun a b : String => a < b)
      (([{ folder := "a", title := "a", description := "" },
         { folder := "b", title := "b", description := "" },
         { folder := "c", title := "c", description := "" }] : List Entry).map fun e => e.folder) :=
  C5_scanner_order.1 [("b", .dir []), ("a", .dir []), ("c", .dir [])]
    [{ folder := "a", title := "a", description := "" },
     { folder := "b", title := "b", description := "" },
     { folder := "c", title := "c", description := "" }] (by decide) rfl

theorem drop_length_takeWhile (p : Char → Bool) : ∀ l : List Char,
    l.drop (l.takeWhile p).length = l.dropWhile p := by
  intro l
  induction l with
  | nil => rfl
  | cons c t ih =>
    by_cases h : p c
    · simp [List.takeWhile_cons, List.dropWhile_cons, h, ih]
    · simp [List.takeWhile_cons, List.dropWhile_cons, h]

theorem takeWhile_all_of_dropWhile_nil (p : Char → Bool) : ∀ l : List Char,
    l.dropWhile p = [] → l.takeWhile p = l := by
  intro l
  induction l with
  | nil => intro _; rfl
  | cons c t ih =>
    intro h
    by_cases hc : p c
    · simp only [List.dropWhile_cons, hc, if_true] at h
      simp [List.takeWhile_cons, hc, ih h]
    · simp [List.dropWhile_cons, hc] at h

theorem head_dropWhile_eq_head_filter (p : Char → Bool) : ∀ m : List Char,
    (m.dropWhile p).head? = (m.filter (fun x => !p x)).head? := by
  intro m
  induction m with
  | nil => rfl
  | cons c t ih =>
    by_cases h : p c
    · simp [List.dropWhile_cons, List.filter_cons, h, ih]
    · simp [List.dropWhile_cons, List.filter_cons, h]

theorem matchHashAux_eq_spec : ∀ rest : List Char, matchHashAux rest = specHashMatch rest := by
  have hpred : (fun x : Char => decide (x ≠ '\n')) = (fun x : Char => !decide (x = '\n')) := by
    funext x
    by_cases h : x = '\n' <;> simp [h]
  intro rest
  cases rest with
  | nil => rfl
  | cons c cs =>
    by_cases hc : isPySpace c
    · have hdrop : (c :: cs).drop ((c :: cs).takeWhile isPySpace).length
          = (c :: cs).dropWhile isPySpace := drop_length_takeWhile _ _
      cases htl : (c :: cs).dropWhile isPySpace with
      | nil =>
        have hrun : (c :: cs).takeWhile isPySpace = c :: cs :=
          takeWhile_all_of_dropWhile_nil _ _ htl
        have hbridge : ((cs.reverse.dropWhile (fun x => x = '\n'))).head?
            = (cs.filter (fun d => d ≠ '\n')).getLast? := by
          rw [head_dropWhile_eq_head_filter, ← List.head?_reverse, List.filter_reverse, hpred]
        unfold matchHashAux specHashMatch
        rw [hdrop, hrun, htl]
        simp only [List.isEmpty_cons, Bool.false_eq_true, if_false, List.isEmpty_nil, if_true,
          hc, List.tail_cons]
        cases hx : cs.reverse.dropWhile (fun x => decide (x = '\n')) with
        | nil =>
          rw [hx] at hbridge
          simp only [List.head?_nil] at hbridge
          rw [← hbridge]
        | cons d t =>
          rw [hx] at hbridge
          simp only [List.head?_cons] at hbridge
          rw [← hbridge]
      | cons d ds =>
        unfold matchHashAux specHashMatch
        rw [hdrop, htl]
        have hrunne : ((c :: cs).takeWhile isPySpace).isEmpty = false := by
          simp [List.takeWhile_cons, hc]
        rw [hrunne]
        simp [hc]
    · have hrun : (c :: cs).takeWhile isPySpace = [] := by
        simp [List.takeWhile_cons, hc]
      unfold matchHashAux specHashMatch
      simp [hrun, hc]

theorem pySplitLines_ne_nil : ∀ l : List Char, pySplitLines l ≠ [] := by
  intro l
  cases l with
  | nil => simp [pySplitLines]
  | cons c t =>
    by_cases hc : c = '\n'
    · simp [pySplitLines, hc]
    · simp only [pySplitLines, hc, if_false]
      cases pySplitLines t <;> simp

theorem pySplitLines_no_newline : ∀ l : List Char, ∀ line ∈ pySplitLines l, '\n' ∉ line := by
  intro l
  induction l with
  | nil =>
    intro line h
    simp [pySplitLines] at h
    subst h
    simp
  | cons c t ih =>
    intro line h
    by_cases hc : c = '\n'
    · subst hc
      have hps : pySplitLines ('\n' :: t) = [] :: pySplitLines t := by
        simp [pySplitLines]
      rw [hps] at h
      rcases List.mem_cons.mp h with rfl | hm
      · simp
      · exact ih line hm
    · simp only [pySplitLines, hc, if_false] at h
      cases hs : pySplitLines t with
      | nil => exact absurd hs (pySplitLines_ne_nil t)
      | cons l0 ls =>
        rw [hs] at h
        simp only [List.mem_cons] at h
        rcases h with rfl | hm
        · have h0 : '\n' ∉ l0 := ih l0 (by rw [hs]; exact List.mem_cons_self _ _)
          simp [List.mem_cons, h0, Ne.symm hc]
        · exact ih line (by rw [hs]; exact List.mem_cons_of_mem _ hm)

theorem joinLines_pySplitLines : ∀ l : List Char, joinLines (pySplitLines l) = l := by
  intro l
  induction l with
  | nil => rfl
  | cons c t ih =>
    by_cases hc : c = '\n'
    · subst hc
      cases hs : pySplitLines t with
      | nil => exact absurd hs (pySplitLines_ne_nil t)
      | cons l0 ls =>
        rw [hs] at ih
        simp only [pySplitLines, if_pos rfl, hs, joinLines, rejoinTail, List.nil_append]
        exact congrArg ('\n' :: ·) ih
    · cases hs : pySplitLines t with
      | nil => exact absurd hs (pySplitLines_ne_nil t)
      | cons l0 ls =>
        rw [hs] at ih
        simp only [pySplitLines, hc, if_false, hs, joinLines, List.cons_append]
        exact congrArg (c :: ·) ih

theorem dropWhile_append_all (p : Char → Bool) : ∀ (l₁ l₂ : List Char),
    (∀ c ∈ l₁, p c = true) → (l₁ ++ l₂).dropWhile p = l₂.dropWhile p := by
  intro l₁
  induction l₁ with
  | nil => intro l₂ _; rfl
  | cons c t ih =>
    intro l₂ hall
    have hc : p c = true := hall c (List.mem_cons_self _ _)
    simp only [List.cons_append, List.dropWhile_cons, hc, if_true]
    exact ih l₂ (fun d hd => hall d (List.mem_cons_of_mem _ hd))

theorem nextLine_join (line : List Char) (hnn : '\n' ∉ line) (rest : List (List Char)) :
    nextLine (line ++ rejoinTail rest) = joinLines rest := by
  unfold nextLine
  have hall : ∀ c ∈ line, (fun c => decide (c ≠ '\n')) c = true := by
    intro c hcmem
    simp only [decide_eq_true_eq]
    intro he
    exact hnn (he ▸ hcmem)
  rw [dropWhile_append_all _ line (rejoinTail rest) hall]
  cases rest with
  | nil => rfl
  | cons r rs =>
    simp only [rejoinTail, List.dropWhile_cons]
    norm_num
    rfl

theorem searchTitleAux_nil_input (fuel : Nat) : searchTitleAux fuel [] = none := by
  cases fuel <;> rfl

theorem searchTitleAux_join : ∀ (ls : List (List Char)), (∀ line ∈ ls, '\n' ∉ line) →
    ∀ fuel, (joinLines ls).length ≤ fuel →
      searchTitleAux fuel (joinLines ls) = titleFromLines ls := by
  intro ls
  induction ls with
  | nil => intro _ fuel _; exact searchTitleAux_nil_input fuel
  | cons line rest ih =>
    intro hnn fuel hfuel
    have hline : '\n' ∉ line := hnn line (List.mem_cons_self _ _)
    have hrest : ∀ l ∈ rest, '\n' ∉ l := fun l hl => hnn l (List.mem_cons_of_mem _ hl)
    cases line with
    | nil =>
      cases rest with
      | nil =>
        have hj : joinLines [([] : List Char)] = [] := rfl
        rw [hj, searchTitleAux_nil_input]
        rfl
      | cons r rs =>
        have hj : joinLines ([] :: r :: rs) = '\n' :: joinLines (r :: rs) := rfl
        rw [hj] at hfuel ⊢
        cases fuel with
        | zero => simp at hfuel
        | succ f =>
          have hstep : searchTitleAux (f + 1) ('\n' :: joinLines (r :: rs))
              = searchTitleAux f (nextLine ('\n' :: joinLines (r :: rs))) := by
            simp [searchTitleAux]
          have hnl : nextLine ('\n' :: joinLines (r :: rs)) = joinLines (r :: rs) := by
            simp [nextLine, List.dropWhile_cons]
          have htf : titleFromLines ([] :: r :: rs) = titleFromLines (r :: rs) := by
            simp [titleFromLines]
          rw [hstep, hnl, htf]
          simp only [List.length_cons] at hfuel
          exact ih hrest f (by omega)
    | cons c cs =>
      have hj : joinLines ((c :: cs) :: rest) = c :: (cs ++ rejoinTail rest) := by
        simp [joinLines]
      rw [hj] at hfuel ⊢
      cases fuel with
      | zero => simp at hfuel
      | succ f =>
        have hnl : nextLine (c :: (cs ++ rejoinTail rest)) = joinLines rest := by
          have h0 := nextLine_join (c :: cs) hline rest
          simpa [List.cons_append] using h0
        have hflen : (joinLines rest).length ≤ f := by
          cases rest with
          | nil => simp [joinLines]
          | cons r rs =>
            simp only [rejoinTail, joinLines, List.length_cons, List.length_append] at hfuel ⊢
            omega
        by_cases hch : c = '#'
        · subst hch
          have hstep : searchTitleAux (f + 1) ('#' :: (cs ++ rejoinTail rest))
              = match matchHashAux (cs ++ rejoinTail rest) with
                | some g => some g
                | none => searchTitleAux f (nextLine ('#' :: (cs ++ rejoinTail rest))) := by
            simp [searchTitleAux]
          have htf : titleFromLines (('#' :: cs) :: rest)
              = match specHashMatch (cs ++ rejoinTail rest) with
                | some g => some g
                | none => titleFromLines rest := by
            simp [titleFromLines]
          rw [hstep, matchHashAux_eq_spec, htf]
          cases hm : specHashMatch (cs ++ rejoinTail rest) with
          | some g => rfl
          | none =>
            rw [hnl]
            exact ih hrest f hflen
        · have hstep : searchTitleAux (f + 1) (c :: (cs ++ rejoinTail rest))
              = searchTitleAux f (nextLine (c :: (cs ++ rejoinTail rest))) := by
            simp [searchTitleAux, hch]
          have htf : titleFromLines ((c :: cs) :: rest) = titleFromLines rest := by
            simp [titleFromLines, hch]
          rw [hstep, hnl, htf]
          exact ih hrest f hflen

theorem searchTitle_eq_titleFromLines (l : List Char) :
    searchTitle l = titleFromLines (pySplitLines l) := by
  unfold searchTitle
  have hjoin := joinLines_pySplitLines l
  have hnn := pySplitLines_no_newline l
  calc searchTitleAux l.length l
      = searchTitleAux (joinLines (pySplitLines l)).length (joinLines (pySplitLines l)) := by
        rw [hjoin]
    _ = titleFromLines (pySplitLines l) :=
        searchTitleAux_join (pySplitLines l) hnn _ le_rfl

theorem titleFromLines_none_of_no_hash : ∀ ls : List (List Char),
    (∀ line ∈ ls, line.head? ≠ some '#') → titleFromLines ls = none := by
  intro ls
  induction ls with
  | nil => intro _; rfl
  | cons line rest ih =>
    intro h
    have h1 : line.head? ≠ some '#' := h line (List.mem_cons_self _ _)
    simp only [titleFromLines, h1, if_false]
    exact ih (fun l hl => h l (List.mem_cons_of_mem _ hl))

/-- C1 counterexample: the line `## Sub` matches the claim's rule
`one or more # characters, one or more spaces, then text` (title `Sub`),
but the code's regex `^#\s+(.+)$` requires exactly one `#`, so the extractor
falls back. -/
theorem C1_counterexample :
    (parse_markdown "## Sub" "fb").title = "fb"
    ∧ titleC1 "## Sub" "fb" = "Sub"
    ∧ ("fb" : String) ≠ "Sub" :=
  ⟨rfl, rfl, by decide⟩

/-- C1 amended: the title is the trimmed capture of the first line-start
match of `exactly one # character, one or more whitespace characters
(possibly spanning line breaks), then text`, searched over the whole
document; if no such match exists the title is the fallback. -/
theorem C1_title_rule (content fallback : String) :
    (parse_markdown content fallback).title = specTitle content fallback := by
  show (match searchTitle content.data with
        | some g => String.mk (pyStrip g)
        | none => fallback) = specTitle content fallback
  rw [searchTitle_eq_titleFromLines]
  rfl

/-- C8 counterexample: this document contains the line `# Title`, yet the
extracted title is `Other` (the leftmost match wins), so "contains a line
`# Title`" does not force the title `Title`. -/
theorem C8_counterexample :
    ("# Title" : String).data ∈ pySplitLines ("# Other\n# Title" : String).data
    ∧ (parse_markdown "# Other\n# Title" "fb").title = "Other"
    ∧ ("Other" : String) ≠ "Title" :=
  ⟨by decide, rfl, by decide⟩

/-- C8 amended: a document whose first line is `# Title` gets title `Title`
regardless of the fallback; and a document in which no line begins with `#`
gets the fallback as its title. -/
theorem C8_title_fallback :
    (∀ rest fallback : String,
      (parse_markdown ("# Title\n" ++ rest) fallback).title = "Title")
    ∧ (∀ fallback : String, (parse_markdown "# Title" fallback).title = "Title")
    ∧ (∀ content fallback : String,
        (∀ line ∈ pySplitLines content.data, line.head? ≠ some '#') →
          (parse_markdown content fallback).title = fallback) := by
  refine ⟨fun rest fallback => rfl, fun fallback => rfl, ?_⟩
  intro content fallback hno
  show (match searchTitle content.data with
        | some g => String.mk (pyStrip g)
        | none => fallback) = fallback
  rw [searchTitle_eq_titleFromLines, titleFromLines_none_of_no_hash _ hno]

theorem C8_title_fallback_witness : (parse_markdown "hello\nworld" "fb").title = "fb" :=
  C8_title_fallback.2.2 "hello\nworld" "fb" (by decide)
